import Mathlib

/-!
Verification development for the zcapld capability-invocation verifier
(package `pkg/zcapld`, file `verify.go`).

The pure decision logic of `Verify`, `verifyCapabilityChain`, `stringsContain`
and `isInvoker` is embedded directly from `verify.go`.  The `Capability`
document type, `CapabilityInvocation`, `VerificationMethod` and the
capability accessors (`capabilityChain()`, `validateCapabilityChain()`,
`invokers()`) are declared in a sibling file of the package that is not part
of the sources here; they are modelled from the design document (see the doc
comments below).  Errors produced with `errors.New` / `fmt.Errorf` are
modelled by inductive error types whose constructors carry exactly the values
interpolated into the corresponding Go message.
-/

namespace Zcapld

/-- Modelled from the spec: a `VerificationMethod` identifies a cryptographic
key or identity, with an `ID` (URI) and a `Controller` (URI of the entity that
controls the method, possibly empty). -/
structure VerificationMethod where
  ID : String
  Controller : String
deriving Repr, DecidableEq

/-- Modelled from the spec: the invocation target of a capability, the
resource identifier (plus a type tag, called `Type` in the source) the
capability authorizes action on.  Only the `ID` is consulted by the
verifier. -/
structure InvocationTarget where
  ID : String
  typeTag : String
deriving Repr, DecidableEq

/-- Modelled from the spec: one entry of the untyped `capabilityChain`
sequence (`[]interface{}` in Go): either a capability URI (a string) or a
nested full capability document (any non-string value).  The Go type
assertion `untyped.(string)` succeeds exactly on the `str` constructor. -/
inductive ChainEntry where
  | str (uri : String)
  | doc (id : String)
deriving Repr, DecidableEq

instance exceptDecEq {ε α : Type} [DecidableEq ε] [DecidableEq α] :
    DecidableEq (Except ε α) := fun a b =>
  match a, b with
  | .error e1, .error e2 =>
    if h : e1 = e2 then .isTrue (by rw [h])
    else .isFalse (fun c => h (Except.error.injEq .. ▸ c))
  | .ok a1, .ok a2 =>
    if h : a1 = a2 then .isTrue (by rw [h])
    else .isFalse (fun c => h (Except.ok.injEq .. ▸ c))
  | .error _, .ok _ => .isFalse (fun c => Except.noConfusion c)
  | .ok _, .error _ => .isFalse (fun c => Except.noConfusion c)

/-- Modelled from the spec: a `Capability` document.  `ID`,
`InvocationTarget` and `AllowedAction` are its attributes; the three
accessor methods `capabilityChain()`, `validateCapabilityChain()` and
`invokers()` (defined outside the given sources, each returning a value or
an error on a malformed document) are modelled by fields recording their
result on this immutable document. -/
structure Capability where
  ID : String
  InvocationTarget : InvocationTarget
  AllowedAction : List String
  capabilityChain : Except String (List ChainEntry)
  validateCapabilityChain : Except String Unit
  invokers : Except String (List String)
deriving Repr, DecidableEq

/-- Modelled from the spec: a `CapabilityInvocation` carries the expected
action, target and root-capability URIs (empty string meaning unchecked) and
the verification method that signed the invocation. -/
structure CapabilityInvocation where
  ExpectedAction : String
  ExpectedTarget : String
  ExpectedRootCapability : String
  VerificationMethod : VerificationMethod
deriving Repr, DecidableEq

/-- `Proof` from `verify.go`: the capability (a nullable pointer in Go,
hence `Option`), the action being proven, and the verification-method id. -/
structure Proof where
  Capability : Option Capability
  CapabilityAction : String
  VerificationMethod : String
deriving Repr, DecidableEq

/-- Modelled from the spec: `CapabilityResolver.Resolve(uri) -> (Capability,
error)` — the injected lookup collaborator.  A successful resolution carries
the resolved capability. -/
def CapabilityResolver : Type := String → Except String Capability

/-- Errors returned by `verifyCapabilityChain`, one constructor per
`errors.New` / `fmt.Errorf` site, carrying the interpolated values. -/
inductive ChainError where
  /-- capability action "a" is not allowed by the capability; allowed actions are: l -/
  | actionNotAllowed (intendedAction : String) (allowed : List String)
  /-- capability action "a" does not match the expected capability action of "b" -/
  | actionMismatch (intendedAction : String) (expectedAction : String)
  /-- invalid capability chain: e (from validateCapabilityChain) -/
  | invalidChainStructure (e : String)
  /-- failed to fetch capabilityChain: e -/
  | fetchChainFailed (e : String)
  /-- invalid rootURI format: v -/
  | invalidRootURIFormat (entry : ChainEntry)
  /-- failed to resolve root capability URI uri: e -/
  | resolveFailed (uri : String) (e : String)
  /-- expected target does not match root capability target -/
  | targetMismatch (expected : String) (target : String)
  /-- expected root capability does not match actual root capability -/
  | rootMismatch (expected : String) (actual : String)
  /-- the root capability must not specify a different invocation target -/
  | rootTargetNotSelf
  /-- multiple capabilityChains not supported yet -/
  | multipleChains
deriving Repr, DecidableEq

/-- Errors returned by `Verify`, one constructor per error site. -/
inductive VerifyError where
  /-- "capability" was not found in the capability invocation proof -/
  | missingCapability
  /-- invalid capability chain: e -/
  | invalidChain (e : ChainError)
  /-- isInvoke: e -/
  | isInvokeFailed (e : String)
  /-- the authorized invoker does not match the verification method or its controller -/
  | invokerUnauthorized
deriving Repr, DecidableEq

/-- `stringsContain` from `verify.go`: linear scan for string membership. -/
def stringsContain (strs : List String) (s : String) : Bool :=
  match strs with
  | [] => false
  | x :: rest => if s == x then true else stringsContain rest s

/-- `verifyCapabilityChain` from `verify.go`, with the resolver passed
explicitly (in Go it is the `zcaps` field of the receiver `Verifier`). -/
def verifyCapabilityChain (zcaps : CapabilityResolver) (capability : Capability)
    (intendedAction : String) (invocation : CapabilityInvocation) :
    Except ChainError Unit :=
  -- 1.1. ensure the intended action, if given, is allowed
  if capability.AllowedAction.length != 0 && intendedAction != "" &&
      !stringsContain capability.AllowedAction intendedAction then
    .error (.actionNotAllowed intendedAction capability.AllowedAction)
  else if invocation.ExpectedAction != intendedAction then
    .error (.actionMismatch intendedAction invocation.ExpectedAction)
  else
    -- 3. validate the capability delegation chain
    match capability.validateCapabilityChain with
    | .error e => .error (.invalidChainStructure e)
    | .ok () =>
      -- 2. get the capability delegation chain
      match capability.capabilityChain with
      | .error e => .error (.fetchChainFailed e)
      | .ok chain =>
        -- 4. determine the root URI; pop it off the chain when present
        let isRoot := chain.length == 0
        let step : Except ChainError (String × List ChainEntry) :=
          match chain with
          | [] => .ok (capability.ID, [])
          | untyped :: rest =>
            match untyped with
            | .str uri => .ok (uri, rest)
            | .doc d => .error (.invalidRootURIFormat (.doc d))
        match step with
        | .error e => .error e
        | .ok (rootURI, capabilityChain) =>
          match zcaps rootURI with
          | .error e => .error (.resolveFailed rootURI e)
          | .ok root =>
            -- 4.1. check the expected target, if one was specified
            if invocation.ExpectedTarget != "" &&
                invocation.ExpectedTarget != root.InvocationTarget.ID then
              .error (.targetMismatch invocation.ExpectedTarget root.InvocationTarget.ID)
            -- 4.3. ensure the root capability is the expected one
            else if invocation.ExpectedRootCapability != "" &&
                invocation.ExpectedRootCapability != root.ID then
              .error (.rootMismatch invocation.ExpectedRootCapability root.ID)
            else if invocation.ExpectedRootCapability == "" &&
                root.InvocationTarget.ID != root.ID then
              .error .rootTargetNotSelf
            else if isRoot then
              .ok ()
            else if capabilityChain.length != 0 then
              .error .multipleChains
            else
              .ok ()

/-- `isInvoker` from `verify.go`: the verification method is an authorized
invoker iff the invoker list is non-empty and contains the method id, or the
method has a non-empty controller contained in the list. -/
def isInvoker (capability : Capability) (verificationMethod : VerificationMethod) :
    Except String Bool :=
  match capability.invokers with
  | .error e => .error ("failed to fetch invokers: " ++ e)
  | .ok invokers =>
    let controller := verificationMethod.Controller
    if invokers.length != 0 then
      .ok (stringsContain invokers verificationMethod.ID ||
        (controller != "" && stringsContain invokers controller))
    else
      .ok false

/-- `Verifier.Verify` from `verify.go`, with the resolver passed explicitly. -/
def Verify (zcaps : CapabilityResolver) (proof : Proof)
    (invocation : CapabilityInvocation) : Except VerifyError Unit :=
  match proof.Capability with
  | none => .error .missingCapability
  | some capability =>
    -- 2. verify the capability delegation chain
    match verifyCapabilityChain zcaps capability proof.CapabilityAction invocation with
    | .error e => .error (.invalidChain e)
    | .ok () =>
      -- 3. verify the invoker
      match isInvoker capability invocation.VerificationMethod with
      | .error e => .error (.isInvokeFailed e)
      | .ok b => if !b then .error .invokerUnauthorized else .ok ()

/-- The root URI that `verifyCapabilityChain` submits to the resolver for a
given capability: its own `ID` when the chain is empty, the first chain
entry when that entry is a string, and none when the chain cannot be
fetched or starts with a non-string entry. -/
def rootURIOf (capability : Capability) : Option String :=
  match capability.capabilityChain with
  | .error _ => none
  | .ok [] => some capability.ID
  | .ok (.str uri :: _) => some uri
  | .ok (.doc _ :: _) => none

/-! ### Concrete fixtures

The end-to-end scenario of the design document: a root capability invoked by
its listed invoker, together with variants used below. -/

/-- The verification method of the end-to-end scenario. -/
def aliceVM : VerificationMethod := { ID := "did:ex:alice", Controller := "" }

/-- The root capability of the end-to-end scenario. -/
def rootCap : Capability :=
  { ID := "urn:cap:1"
    InvocationTarget := { ID := "urn:cap:1", typeTag := "" }
    AllowedAction := ["read"]
    capabilityChain := .ok []
    validateCapabilityChain := .ok ()
    invokers := .ok ["did:ex:alice"] }

/-- A resolver that answers every URI with the root capability. -/
def rootResolver : CapabilityResolver := fun _ => .ok rootCap

/-- The invocation of the end-to-end scenario. -/
def readInvocation : CapabilityInvocation :=
  { ExpectedAction := "read", ExpectedTarget := "", ExpectedRootCapability := ""
    VerificationMethod := aliceVM }

/-- A root capability whose invocation target differs from its own id. -/
def otherTargetCap : Capability :=
  { rootCap with InvocationTarget := { ID := "urn:other", typeTag := "" } }

/-- A capability with a two-entry delegation chain. -/
def deepChainCap : Capability :=
  { rootCap with capabilityChain := .ok [.str "urn:cap:1", .doc "urn:cap:2"] }

/-! ### Helper lemmas -/

/-- The linear scan `stringsContain` decides list membership. -/
theorem stringsContain_iff (strs : List String) (s : String) :
    stringsContain strs s = true ↔ s ∈ strs := by
  induction strs with
  | nil => simp [stringsContain]
  | cons x rest ih =>
    by_cases h : s = x
    · simp [stringsContain, h]
    · simp [stringsContain, h, ih]

/-! ### Claim theorems -/

/-- Claim C8: for every proof whose `Capability` field is nil, `Verify`
immediately returns the missing-capability error, for every resolver and
every invocation value — in particular the result does not depend on the
resolver, so no resolution and no chain or invoker check takes place. -/
theorem verify_missing_capability (zcaps : CapabilityResolver) (a vmStr : String)
    (inv : CapabilityInvocation) :
    Verify zcaps { Capability := none, CapabilityAction := a, VerificationMethod := vmStr } inv
      = .error .missingCapability := rfl

/-- Claim C1 (amended): for every capability whose `AllowedAction` list is
non-empty and does not contain the intended action, provided the intended
action itself is non-empty, `Verify` returns the action-not-allowed error
naming the intended action and the allowed set. -/
theorem verify_action_not_allowed (zcaps : CapabilityResolver) (cap : Capability)
    (a vmStr : String) (inv : CapabilityInvocation)
    (h1 : cap.AllowedAction ≠ []) (h2 : a ≠ "")
    (h3 : stringsContain cap.AllowedAction a = false) :
    Verify zcaps { Capability := some cap, CapabilityAction := a, VerificationMethod := vmStr } inv
      = .error (.invalidChain (.actionNotAllowed a cap.AllowedAction)) := by
  simp [Verify, verifyCapabilityChain, h1, h2, h3, List.length_eq_zero]

/-- Witness for C1: a capability allowing only read and write rejects an
intended delete action with the action-not-allowed error. -/
theorem verify_action_not_allowed_wit :
    Verify rootResolver
      { Capability := some { rootCap with AllowedAction := ["read", "write"] }
        CapabilityAction := "delete", VerificationMethod := "" }
      { readInvocation with ExpectedAction := "delete" }
      = .error (.invalidChain (.actionNotAllowed "delete" ["read", "write"])) :=
  verify_action_not_allowed rootResolver { rootCap with AllowedAction := ["read", "write"] }
    "delete" "" { readInvocation with ExpectedAction := "delete" }
    (by decide) (by decide) (by decide)

/-- Counterexample to C1 as stated: `rootCap` has the non-empty allowed-action
list consisting of read only, the intended action is the empty string (not a
member of that list), yet `Verify` succeeds, because the code skips the
allowed-action check when the intended action is empty. -/
theorem verify_action_scoping_cex :
    rootCap.AllowedAction ≠ [] ∧
    stringsContain rootCap.AllowedAction "" = false ∧
    Verify rootResolver
      { Capability := some rootCap, CapabilityAction := "", VerificationMethod := "" }
      { readInvocation with ExpectedAction := "" } = .ok () := by decide

/-- Claim C2 (amended): for every proof with a present capability and every
invocation whose `ExpectedAction` differs from the intended action, provided
the allowed-action check does not fire first (the capability restricts no
actions, or the intended action is empty, or it is allowed), `Verify` returns
the action-mismatch error quoting both values. -/
theorem verify_action_mismatch (zcaps : CapabilityResolver) (cap : Capability)
    (a vmStr : String) (inv : CapabilityInvocation)
    (h1 : inv.ExpectedAction ≠ a)
    (h2 : cap.AllowedAction = [] ∨ a = "" ∨ stringsContain cap.AllowedAction a = true) :
    Verify zcaps { Capability := some cap, CapabilityAction := a, VerificationMethod := vmStr } inv
      = .error (.invalidChain (.actionMismatch a inv.ExpectedAction)) := by
  rcases h2 with h | h | h
  · simp [Verify, verifyCapabilityChain, h, h1]
  · subst h
    simp [Verify, verifyCapabilityChain, h1]
  · simp [Verify, verifyCapabilityChain, h, h1]

/-- Witness for C2: expected action read against intended action write on an
unrestricted capability yields the action-mismatch error quoting both. -/
theorem verify_action_mismatch_wit :
    Verify rootResolver
      { Capability := some { rootCap with AllowedAction := [] }
        CapabilityAction := "write", VerificationMethod := "" }
      readInvocation = .error (.invalidChain (.actionMismatch "write" "read")) :=
  verify_action_mismatch rootResolver { rootCap with AllowedAction := [] }
    "write" "" readInvocation (by decide) (Or.inl (by decide))

/-- Counterexample to C2 as stated: the intended action write is outside the
allowed set of `rootCap` and also differs from the expected action read, and
`Verify` reports action-not-allowed, not the action-mismatch error — the
allowed-action check runs first, so the mismatch error is not returned
regardless of the allowed-action contents. -/
theorem verify_action_mismatch_cex :
    readInvocation.ExpectedAction ≠ "write" ∧
    Verify rootResolver
      { Capability := some rootCap, CapabilityAction := "write", VerificationMethod := "" }
      readInvocation = .error (.invalidChain (.actionNotAllowed "write" ["read"])) := by
  decide

/-- Claim C5: when the invoker list resolves to `l`, `isInvoker` authorizes a
verification method exactly when `l` is non-empty and either the method id is
a member of `l`, or the method controller is a non-empty member of `l`; in
particular an empty list authorizes nobody, and a listed controller
authorizes a method whose own id is absent. -/
theorem isInvoker_iff (cap : Capability) (vm : VerificationMethod) (l : List String)
    (h : cap.invokers = .ok l) :
    isInvoker cap vm = .ok true ↔
      l ≠ [] ∧ (vm.ID ∈ l ∨ (vm.Controller ≠ "" ∧ vm.Controller ∈ l)) := by
  unfold isInvoker
  rw [h]
  by_cases hl : l = []
  · subst hl
    simp
  · simp [hl, List.length_eq_zero, stringsContain_iff]

/-- Witness for C5: the invoker-via-controller scenario — the invoker list
holds only the controller c1 of a method m1, and `isInvoker` authorizes it. -/
theorem isInvoker_iff_wit :
    isInvoker { rootCap with invokers := .ok ["c1"] } { ID := "m1", Controller := "c1" }
      = .ok true :=
  (isInvoker_iff { rootCap with invokers := .ok ["c1"] }
    { ID := "m1", Controller := "c1" } ["c1"] rfl).mpr (by decide)

/-- Claim C6: a capability whose fetched chain still holds entries after the
root URI is popped makes `Verify` fail with the multiple-chains error, even
when the action checks, the target check and both root-identity checks all
pass (and regardless of the invoker list, which is never consulted). -/
theorem verify_deep_chain (zcaps : CapabilityResolver) (cap : Capability)
    (a vmStr : String) (inv : CapabilityInvocation) (uri : String)
    (rest : List ChainEntry) (root : Capability)
    (hg : cap.AllowedAction = [] ∨ a = "" ∨ stringsContain cap.AllowedAction a = true)
    (hexp : inv.ExpectedAction = a)
    (hval : cap.validateCapabilityChain = .ok ())
    (hch : cap.capabilityChain = .ok (.str uri :: rest))
    (hrest : rest ≠ [])
    (hres : zcaps uri = .ok root)
    (hc1 : ¬(inv.ExpectedTarget ≠ "" ∧ inv.ExpectedTarget ≠ root.InvocationTarget.ID))
    (hc2 : ¬(inv.ExpectedRootCapability ≠ "" ∧ inv.ExpectedRootCapability ≠ root.ID))
    (hc3 : ¬(inv.ExpectedRootCapability = "" ∧ root.InvocationTarget.ID ≠ root.ID)) :
    Verify zcaps { Capability := some cap, CapabilityAction := a, VerificationMethod := vmStr } inv
      = .error (.invalidChain .multipleChains) := by
  subst hexp
  rcases hg with h | h | h <;>
    simp [Verify, verifyCapabilityChain, h, hval, hch, hres, hrest, hc1, hc2, hc3,
      List.length_eq_zero]

/-- Witness for C6: a two-entry chain on an otherwise valid invocation fails
with the multiple-chains error. -/
theorem verify_deep_chain_wit :
    Verify rootResolver
      { Capability := some deepChainCap, CapabilityAction := "read", VerificationMethod := "" }
      readInvocation = .error (.invalidChain .multipleChains) :=
  verify_deep_chain rootResolver deepChainCap "read" "" readInvocation
    "urn:cap:1" [.doc "urn:cap:2"] rootCap
    (Or.inr (Or.inr (by decide))) rfl rfl rfl (by decide) rfl
    (by decide) (by decide) (by decide)

/-- Claim C7 (amended): a capability with an empty delegation chain whose own
invocation target equals its id and whose invoker list contains the
invocation's verification-method id makes `Verify` succeed, provided
additionally that the resolver resolves the capability's id back to it, the
chain validates, the invocation's expected action equals the proof's
capability action and passes the allowed-action check, and the expected
target and expected root capability are unset or match the capability. -/
theorem verify_root_self_success (zcaps : CapabilityResolver) (cap : Capability)
    (a vmStr : String) (l : List String) (inv : CapabilityInvocation)
    (hch : cap.capabilityChain = .ok [])
    (hval : cap.validateCapabilityChain = .ok ())
    (hself : cap.InvocationTarget.ID = cap.ID)
    (hinv : cap.invokers = .ok l)
    (hmem : inv.VerificationMethod.ID ∈ l)
    (hres : zcaps cap.ID = .ok cap)
    (hexp : inv.ExpectedAction = a)
    (hg : cap.AllowedAction = [] ∨ a = "" ∨ stringsContain cap.AllowedAction a = true)
    (htgt : inv.ExpectedTarget = "" ∨ inv.ExpectedTarget = cap.InvocationTarget.ID)
    (hrc : inv.ExpectedRootCapability = "" ∨ inv.ExpectedRootCapability = cap.ID) :
    Verify zcaps { Capability := some cap, CapabilityAction := a, VerificationMethod := vmStr } inv
      = .ok () := by
  subst hexp
  have hcont : stringsContain l inv.VerificationMethod.ID = true :=
    (stringsContain_iff l inv.VerificationMethod.ID).mpr hmem
  have hlne : l ≠ [] := List.ne_nil_of_mem hmem
  rcases hg with h | h | h <;> rcases htgt with ht | ht <;> rcases hrc with hr | hr <;>
    simp [Verify, verifyCapabilityChain, isInvoker, h, ht, hr, hch, hval, hself, hinv,
      hcont, hlne, hres, List.length_eq_zero]

/-- Witness for C7: the end-to-end scenario — the root capability invoked by
its listed invoker verifies successfully. -/
theorem verify_root_self_success_wit :
    Verify rootResolver
      { Capability := some rootCap, CapabilityAction := "read", VerificationMethod := "" }
      readInvocation = .ok () :=
  verify_root_self_success rootResolver rootCap "read" "" ["did:ex:alice"] readInvocation
    rfl rfl rfl rfl (by decide) rfl rfl
    (Or.inr (Or.inr (by decide))) (Or.inl rfl) (Or.inl rfl)

/-- Counterexample to C7 as stated: `rootCap` satisfies every premise of the
claim — empty chain, self-equal invocation target, invoker list containing
the invocation's verification-method id — yet with a resolver that cannot
resolve any URI, `Verify` fails instead of succeeding: root resolution is
always required. -/
theorem verify_root_self_cex :
    rootCap.capabilityChain = .ok [] ∧
    rootCap.InvocationTarget.ID = rootCap.ID ∧
    rootCap.invokers = .ok ["did:ex:alice"] ∧
    readInvocation.VerificationMethod.ID = "did:ex:alice" ∧
    Verify (fun _ => .error "unknown uri")
      { Capability := some rootCap, CapabilityAction := "read", VerificationMethod := "" }
      readInvocation = .error (.invalidChain (.resolveFailed "urn:cap:1" "unknown uri")) := by
  decide

/-- A successful chain verification always contains a successful resolver
call on the root URI determined by the capability. -/
theorem verifyCapabilityChain_ok_resolved (zcaps : CapabilityResolver) (cap : Capability)
    (a : String) (inv : CapabilityInvocation)
    (h : verifyCapabilityChain zcaps cap a inv = .ok ()) :
    ∃ uri root, rootURIOf cap = some uri ∧ zcaps uri = .ok root := by
  unfold verifyCapabilityChain at h
  split at h
  · exact absurd h (by simp)
  split at h
  · exact absurd h (by simp)
  cases hval : cap.validateCapabilityChain with
  | error e => rw [hval] at h; simp at h
  | ok u =>
  rw [hval] at h
  cases hcc : cap.capabilityChain with
  | error e => rw [hcc] at h; simp at h
  | ok chain =>
  rw [hcc] at h
  cases chain with
  | nil =>
    simp only [] at h
    cases hres : zcaps cap.ID with
    | error e => rw [hres] at h; simp at h
    | ok root =>
      exact ⟨cap.ID, root, by unfold rootURIOf; rw [hcc], hres⟩
  | cons entry rest =>
    cases entry with
    | str uri =>
      simp only [] at h
      cases hres : zcaps uri with
      | error e => rw [hres] at h; simp at h
      | ok root =>
        exact ⟨uri, root, by unfold rootURIOf; rw [hcc], hres⟩
    | doc d => simp at h

/-- A successful chain verification with no expected root capability forces
the resolved root to target itself. -/
theorem verifyCapabilityChain_ok_root_self (zcaps : CapabilityResolver) (cap : Capability)
    (a : String) (inv : CapabilityInvocation) (uri : String) (root : Capability)
    (h : verifyCapabilityChain zcaps cap a inv = .ok ())
    (hu : rootURIOf cap = some uri) (hr : zcaps uri = .ok root)
    (he : inv.ExpectedRootCapability = "") :
    root.InvocationTarget.ID = root.ID := by
  unfold verifyCapabilityChain at h
  split at h
  · exact absurd h (by simp)
  split at h
  · exact absurd h (by simp)
  cases hval : cap.validateCapabilityChain with
  | error e => rw [hval] at h; simp at h
  | ok u =>
  rw [hval] at h
  cases hcc : cap.capabilityChain with
  | error e => rw [hcc] at h; simp at h
  | ok chain =>
  rw [hcc] at h
  unfold rootURIOf at hu
  rw [hcc] at hu
  cases chain with
  | nil =>
    simp only [Option.some.injEq] at hu
    subst hu
    simp only [] at h
    rw [hr] at h
    simp only [] at h
    split at h
    · exact absurd h (by simp)
    split at h
    · exact absurd h (by simp)
    split at h
    · exact absurd h (by simp)
    next hc3 =>
      by_contra hne
      exact hc3 (by simp [he, hne])
  | cons entry rest =>
    cases entry with
    | str uri2 =>
      simp only [Option.some.injEq] at hu
      subst hu
      simp only [] at h
      rw [hr] at h
      simp only [] at h
      split at h
      · exact absurd h (by simp)
      split at h
      · exact absurd h (by simp)
      split at h
      · exact absurd h (by simp)
      next hc3 =>
        by_contra hne
        exact hc3 (by simp [he, hne])
    | doc d => simp at hu

/-- Claim C3: root resolution is unconditional and load-bearing.  First: a
capability with an empty delegation chain submits its own id to the
resolver.  Second: for every root URI (empty chain or not), once the checks
before resolution pass, a resolver failure makes `Verify` fail with the
wrapped resolution error naming that URI — the resolver is consulted even
for a self-declared root.  Third: whenever `Verify` succeeds at all, the
resolver was successfully consulted on the root URI determined by the
invoking capability. -/
theorem verify_root_resolution :
    (∀ cap : Capability, cap.capabilityChain = .ok [] → rootURIOf cap = some cap.ID) ∧
    (∀ (zcaps : CapabilityResolver) (cap : Capability) (a vmStr : String)
        (inv : CapabilityInvocation) (uri e : String),
      rootURIOf cap = some uri →
      cap.validateCapabilityChain = .ok () →
      (cap.AllowedAction = [] ∨ a = "" ∨ stringsContain cap.AllowedAction a = true) →
      inv.ExpectedAction = a →
      zcaps uri = .error e →
      Verify zcaps { Capability := some cap, CapabilityAction := a, VerificationMethod := vmStr }
        inv = .error (.invalidChain (.resolveFailed uri e))) ∧
    (∀ (zcaps : CapabilityResolver) (proof : Proof) (inv : CapabilityInvocation),
      Verify zcaps proof inv = .ok () →
      ∃ cap uri root, proof.Capability = some cap ∧ rootURIOf cap = some uri ∧
        zcaps uri = .ok root) := by
  refine ⟨fun cap hcc => by unfold rootURIOf; rw [hcc], ?_, ?_⟩
  · intro zcaps cap a vmStr inv uri e hu hval hg hexp hres
    subst hexp
    unfold rootURIOf at hu
    cases hcc : cap.capabilityChain with
    | error e2 => rw [hcc] at hu; simp at hu
    | ok chain =>
      rw [hcc] at hu
      cases chain with
      | nil =>
        simp only [Option.some.injEq] at hu
        subst hu
        rcases hg with h | h | h <;>
          simp [Verify, verifyCapabilityChain, h, hval, hcc, hres]
      | cons entry rest =>
        cases entry with
        | str uri2 =>
          simp only [Option.some.injEq] at hu
          subst hu
          rcases hg with h | h | h <;>
            simp [Verify, verifyCapabilityChain, h, hval, hcc, hres]
        | doc d => simp at hu
  · intro zcaps proof inv h
    unfold Verify at h
    cases hp : proof.Capability with
    | none => rw [hp] at h; simp at h
    | some cap =>
      rw [hp] at h
      simp only [] at h
      cases hv : verifyCapabilityChain zcaps cap proof.CapabilityAction inv with
      | error e => rw [hv] at h; simp at h
      | ok u =>
        obtain ⟨uri, root, h1, h2⟩ :=
          verifyCapabilityChain_ok_resolved zcaps cap proof.CapabilityAction inv hv
        exact ⟨cap, uri, root, rfl, h1, h2⟩

/-- Witness for C3: a root capability with an empty chain against a resolver
that is offline — `Verify` fails with the wrapped resolution error naming
the capability's own id. -/
theorem verify_root_resolution_wit :
    Verify (fun _ => .error "offline")
      { Capability := some rootCap, CapabilityAction := "read", VerificationMethod := "" }
      readInvocation = .error (.invalidChain (.resolveFailed "urn:cap:1" "offline")) :=
  verify_root_resolution.2.1 (fun _ => .error "offline") rootCap "read" "" readInvocation
    "urn:cap:1" "offline" rfl rfl (Or.inr (Or.inr (by decide))) rfl rfl

/-- Claim C4: the root-identity checks after resolution.  First: when the
invocation expects a root capability and the resolved root's id differs,
`Verify` fails with the root-mismatch error naming both values (given that
the checks before it pass).  Second: when no root capability is expected,
success of `Verify` forces the resolved root to target itself.  Third: when
the expected root is set and matches, the self-target equality is not
required — a root targeting a different id still verifies. -/
theorem verify_root_identity :
    (∀ (zcaps : CapabilityResolver) (cap : Capability) (a vmStr : String)
        (inv : CapabilityInvocation) (uri : String) (root : Capability),
      rootURIOf cap = some uri →
      cap.validateCapabilityChain = .ok () →
      (cap.AllowedAction = [] ∨ a = "" ∨ stringsContain cap.AllowedAction a = true) →
      inv.ExpectedAction = a →
      zcaps uri = .ok root →
      ¬(inv.ExpectedTarget ≠ "" ∧ inv.ExpectedTarget ≠ root.InvocationTarget.ID) →
      inv.ExpectedRootCapability ≠ "" →
      inv.ExpectedRootCapability ≠ root.ID →
      Verify zcaps { Capability := some cap, CapabilityAction := a, VerificationMethod := vmStr }
        inv = .error (.invalidChain (.rootMismatch inv.ExpectedRootCapability root.ID))) ∧
    (∀ (zcaps : CapabilityResolver) (proof : Proof) (inv : CapabilityInvocation)
        (cap : Capability) (uri : String) (root : Capability),
      Verify zcaps proof inv = .ok () →
      proof.Capability = some cap →
      rootURIOf cap = some uri →
      zcaps uri = .ok root →
      inv.ExpectedRootCapability = "" →
      root.InvocationTarget.ID = root.ID) ∧
    (Verify (fun _ => .ok otherTargetCap)
      { Capability := some otherTargetCap, CapabilityAction := "read", VerificationMethod := "" }
      { readInvocation with ExpectedRootCapability := "urn:cap:1" } = .ok () ∧
      otherTargetCap.InvocationTarget.ID ≠ otherTargetCap.ID) := by
  refine ⟨?_, ?_, by decide⟩
  · intro zcaps cap a vmStr inv uri root hu hval hg hexp hres hc1 hrne hrid
    subst hexp
    unfold rootURIOf at hu
    cases hcc : cap.capabilityChain with
    | error e => rw [hcc] at hu; simp at hu
    | ok chain =>
      rw [hcc] at hu
      cases chain with
      | nil =>
        simp only [Option.some.injEq] at hu
        subst hu
        rcases hg with h | h | h <;>
          simp [Verify, verifyCapabilityChain, h, hval, hcc, hres, hc1, hrne, hrid]
      | cons entry rest =>
        cases entry with
        | str uri2 =>
          simp only [Option.some.injEq] at hu
          subst hu
          rcases hg with h | h | h <;>
            simp [Verify, verifyCapabilityChain, h, hval, hcc, hres, hc1, hrne, hrid]
        | doc d => simp at hu
  · intro zcaps proof inv cap uri root h hp hu hr he
    unfold Verify at h
    rw [hp] at h
    simp only [] at h
    cases hv : verifyCapabilityChain zcaps cap proof.CapabilityAction inv with
    | error e => rw [hv] at h; simp at h
    | ok u =>
      exact verifyCapabilityChain_ok_root_self zcaps cap proof.CapabilityAction inv
        uri root hv hu hr he

/-- Witness for C4: expecting a different root than the one resolved yields
the root-mismatch error naming both. -/
theorem verify_root_identity_wit :
    Verify rootResolver
      { Capability := some rootCap, CapabilityAction := "read", VerificationMethod := "" }
      { readInvocation with ExpectedRootCapability := "urn:expected" }
      = .error (.invalidChain (.rootMismatch "urn:expected" "urn:cap:1")) :=
  verify_root_identity.1 rootResolver rootCap "read" ""
    { readInvocation with ExpectedRootCapability := "urn:expected" } "urn:cap:1" rootCap
    rfl rfl (Or.inr (Or.inr (by decide))) rfl rfl (by decide) (by decide) (by decide)

/-- Two resolver answers agree when they are the same error, or capabilities
sharing the id and the invocation-target id — the only two root fields the
verifier consults. -/
def resolverAgrees (r1 r2 : Except String Capability) : Prop :=
  match r1, r2 with
  | .error e1, .error e2 => e1 = e2
  | .ok c1, .ok c2 => c1.ID = c2.ID ∧ c1.InvocationTarget.ID = c2.InvocationTarget.ID
  | _, _ => False

/-- A resolved root differing from `rootCap` in its allowed actions and its
invoker list (and even failing to expose invokers at all). -/
def strippedRoot : Capability :=
  { rootCap with AllowedAction := ["write", "delete"], invokers := .error "malformed" }

/-- Claim C9: the outcome of `Verify` is independent of the resolved root's
`AllowedAction` and invoker lists: resolvers whose answers agree on every
URI up to those fields (same error, or roots with equal id and equal
invocation-target id) produce identical results on every proof and
invocation — only `root.ID` and `root.InvocationTarget.ID` are consulted,
and the invoker check always reads the invoking capability of the proof. -/
theorem verify_root_view_only (z1 z2 : CapabilityResolver)
    (proof : Proof) (inv : CapabilityInvocation)
    (h : ∀ uri, resolverAgrees (z1 uri) (z2 uri)) :
    Verify z1 proof inv = Verify z2 proof inv := by
  have hchain : ∀ (cap : Capability) (a : String),
      verifyCapabilityChain z1 cap a inv = verifyCapabilityChain z2 cap a inv := by
    intro cap a
    unfold verifyCapabilityChain
    split
    · rfl
    split
    · rfl
    cases cap.validateCapabilityChain with
    | error e => rfl
    | ok u =>
      cases cap.capabilityChain with
      | error e => rfl
      | ok chain =>
        cases chain with
        | nil =>
          simp only []
          have hh := h cap.ID
          cases h1 : z1 cap.ID with
          | error e1 =>
            cases h2 : z2 cap.ID with
            | error e2 =>
              rw [h1, h2] at hh
              have he : e1 = e2 := hh
              rw [he]
            | ok c2 =>
              rw [h1, h2] at hh
              exact absurd hh (by simp [resolverAgrees])
          | ok c1 =>
            cases h2 : z2 cap.ID with
            | error e2 =>
              rw [h1, h2] at hh
              exact absurd hh (by simp [resolverAgrees])
            | ok c2 =>
              rw [h1, h2] at hh
              have hh2 : c1.ID = c2.ID ∧ c1.InvocationTarget.ID = c2.InvocationTarget.ID := hh
              simp only []
              rw [hh2.left, hh2.right]
        | cons entry rest =>
          cases entry with
          | str uri =>
            simp only []
            have hh := h uri
            cases h1 : z1 uri with
            | error e1 =>
              cases h2 : z2 uri with
              | error e2 =>
                rw [h1, h2] at hh
                have he : e1 = e2 := hh
                rw [he]
              | ok c2 =>
                rw [h1, h2] at hh
                exact absurd hh (by simp [resolverAgrees])
            | ok c1 =>
              cases h2 : z2 uri with
              | error e2 =>
                rw [h1, h2] at hh
                exact absurd hh (by simp [resolverAgrees])
              | ok c2 =>
                rw [h1, h2] at hh
                have hh2 : c1.ID = c2.ID ∧ c1.InvocationTarget.ID = c2.InvocationTarget.ID := hh
                simp only []
                rw [hh2.left, hh2.right]
          | doc d => rfl
  unfold Verify
  cases hp : proof.Capability with
  | none => rfl
  | some cap =>
    simp only []
    rw [hchain cap proof.CapabilityAction]

/-- Witness for C9: resolvers answering with `rootCap` and with
`strippedRoot` (different allowed actions, invokers unevaluable) verify the
end-to-end invocation identically. -/
theorem verify_root_view_only_wit :
    strippedRoot.AllowedAction ≠ rootCap.AllowedAction ∧
    strippedRoot.invokers ≠ rootCap.invokers ∧
    Verify (fun _ => .ok rootCap)
      { Capability := some rootCap, CapabilityAction := "read", VerificationMethod := "" }
      readInvocation
      = Verify (fun _ => .ok strippedRoot)
        { Capability := some rootCap, CapabilityAction := "read", VerificationMethod := "" }
        readInvocation :=
  ⟨by decide, by decide,
    verify_root_view_only (fun _ => .ok rootCap) (fun _ => .ok strippedRoot)
      { Capability := some rootCap, CapabilityAction := "read", VerificationMethod := "" }
      readInvocation (fun _ => ⟨rfl, rfl⟩)⟩

/-! ### Go pointer-level view

The Go signatures take `*Proof`, `*CapabilityInvocation`,
`*VerificationMethod`, and the resolver returns a `*Capability`.  The
following variant models each pointer as an `Option`; a `none` result models
a nil-pointer dereference (a panic, not an error return).  The decision
logic is the same as above. -/

/-- The resolver contract at the pointer level: `Resolve` may in principle
return a nil capability with a nil error. -/
def CapabilityResolverGo : Type := String → Except String (Option Capability)

/-- Modelled from the spec: `CapabilityInvocation` with its
verification-method pointer explicit. -/
structure CapabilityInvocationGo where
  ExpectedAction : String
  ExpectedTarget : String
  ExpectedRootCapability : String
  VerificationMethod : Option VerificationMethod
deriving Repr, DecidableEq

/-- `isInvoker` at the pointer level: the verification method is
dereferenced (for its controller) only after the invoker list is fetched. -/
def isInvokerGo (capability : Capability)
    (verificationMethod : Option VerificationMethod) : Option (Except String Bool) :=
  match capability.invokers with
  | .error e => some (.error ("failed to fetch invokers: " ++ e))
  | .ok invokers =>
    match verificationMethod with
    | none => none
    | some vm =>
      let controller := vm.Controller
      if invokers.length != 0 then
        some (.ok (stringsContain invokers vm.ID ||
          (controller != "" && stringsContain invokers controller)))
      else
        some (.ok false)

/-- `verifyCapabilityChain` at the pointer level.  The invocation is first
dereferenced at the expected-action comparison (after the allowed-action
check, which touches only the capability); every branch after a successful
resolution reads a field of the root, so a nil resolved capability is an
immediate nil dereference. -/
def verifyCapabilityChainGo (zcaps : CapabilityResolverGo) (capability : Capability)
    (intendedAction : String) (invocation : Option CapabilityInvocationGo) :
    Option (Except ChainError Unit) :=
  if capability.AllowedAction.length != 0 && intendedAction != "" &&
      !stringsContain capability.AllowedAction intendedAction then
    some (.error (.actionNotAllowed intendedAction capability.AllowedAction))
  else
    match invocation with
    | none => none
    | some inv =>
      if inv.ExpectedAction != intendedAction then
        some (.error (.actionMismatch intendedAction inv.ExpectedAction))
      else
        match capability.validateCapabilityChain with
        | .error e => some (.error (.invalidChainStructure e))
        | .ok () =>
          match capability.capabilityChain with
          | .error e => some (.error (.fetchChainFailed e))
          | .ok chain =>
            let isRoot := chain.length == 0
            let step : Except ChainError (String × List ChainEntry) :=
              match chain with
              | [] => .ok (capability.ID, [])
              | untyped :: rest =>
                match untyped with
                | .str uri => .ok (uri, rest)
                | .doc d => .error (.invalidRootURIFormat (.doc d))
            match step with
            | .error e => some (.error e)
            | .ok (rootURI, capabilityChain) =>
              match zcaps rootURI with
              | .error e => some (.error (.resolveFailed rootURI e))
              | .ok none => none
              | .ok (some root) =>
                some (
                  if inv.ExpectedTarget != "" &&
                      inv.ExpectedTarget != root.InvocationTarget.ID then
                    .error (.targetMismatch inv.ExpectedTarget root.InvocationTarget.ID)
                  else if inv.ExpectedRootCapability != "" &&
                      inv.ExpectedRootCapability != root.ID then
                    .error (.rootMismatch inv.ExpectedRootCapability root.ID)
                  else if inv.ExpectedRootCapability == "" &&
                      root.InvocationTarget.ID != root.ID then
                    .error .rootTargetNotSelf
                  else if isRoot then
                    .ok ()
                  else if capabilityChain.length != 0 then
                    .error .multipleChains
                  else
                    .ok ())

/-- `Verify` at the pointer level: the proof pointer is dereferenced
unconditionally at the `proof.Capability` nil check, the invocation pointer
inside the chain verification and again at the invoker check. -/
def VerifyGo (zcaps : CapabilityResolverGo) (proof : Option Proof)
    (invocation : Option CapabilityInvocationGo) : Option (Except VerifyError Unit) :=
  match proof with
  | none => none
  | some p =>
    match p.Capability with
    | none => some (.error .missingCapability)
    | some capability =>
      match verifyCapabilityChainGo zcaps capability p.CapabilityAction invocation with
      | none => none
      | some (.error e) => some (.error (.invalidChain e))
      | some (.ok ()) =>
        match invocation with
        | none => none
        | some inv =>
          match isInvokerGo capability inv.VerificationMethod with
          | none => none
          | some (.error e) => some (.error (.isInvokeFailed e))
          | some (.ok b) =>
            some (if !b then .error .invokerUnauthorized else .ok ())

/-- Claim C10: nil-dereference safety.  Only `proof.Capability` is guarded:
a nil capability yields the missing-capability error even when the
invocation pointer is nil (second conjunct), while a nil proof pointer is a
nil dereference for every invocation (third conjunct), a nil invocation
pointer and a nil verification-method pointer are each reachable nil
dereferences on otherwise valid inputs (fourth and fifth conjuncts, so all
three non-nil inputs are genuine preconditions for totality); and under
those preconditions, together with the resolver never returning a nil
capability on success, no nil dereference is reachable (first conjunct). -/
theorem verify_nil_safety :
    (∀ (zcaps : CapabilityResolverGo) (p : Proof) (inv : CapabilityInvocationGo)
        (vm : VerificationMethod),
      (∀ uri, zcaps uri ≠ .ok none) →
      inv.VerificationMethod = some vm →
      VerifyGo zcaps (some p) (some inv) ≠ none) ∧
    (∀ (zcaps : CapabilityResolverGo) (a vmStr : String)
        (invocation : Option CapabilityInvocationGo),
      VerifyGo zcaps
        (some { Capability := none, CapabilityAction := a, VerificationMethod := vmStr })
        invocation = some (.error .missingCapability)) ∧
    (∀ (zcaps : CapabilityResolverGo) (invocation : Option CapabilityInvocationGo),
      VerifyGo zcaps none invocation = none) ∧
    (VerifyGo (fun _ => .ok (some rootCap))
      (some { Capability := some { rootCap with AllowedAction := [] }
              CapabilityAction := "read", VerificationMethod := "" })
      none = none) ∧
    (VerifyGo (fun _ => .ok (some rootCap))
      (some { Capability := some rootCap, CapabilityAction := "read", VerificationMethod := "" })
      (some { ExpectedAction := "read", ExpectedTarget := "", ExpectedRootCapability := ""
              VerificationMethod := none }) = none) := by
  refine ⟨?_, fun _ _ _ _ => rfl, fun _ _ => rfl, by decide, by decide⟩
  intro zcaps p inv vm hres hvm
  have hchain : ∀ capability : Capability,
      verifyCapabilityChainGo zcaps capability p.CapabilityAction (some inv) ≠ none := by
    intro capability hn
    unfold verifyCapabilityChainGo at hn
    split at hn
    · simp at hn
    simp only [] at hn
    split at hn
    · simp at hn
    cases hval : capability.validateCapabilityChain with
    | error e => rw [hval] at hn; simp at hn
    | ok u =>
      rw [hval] at hn
      cases hcc : capability.capabilityChain with
      | error e => rw [hcc] at hn; simp at hn
      | ok chain =>
        rw [hcc] at hn
        cases chain with
        | nil =>
          simp only [] at hn
          cases hr : zcaps capability.ID with
          | error e => rw [hr] at hn; simp at hn
          | ok oc =>
            cases oc with
            | none => exact hres capability.ID hr
            | some root => rw [hr] at hn; simp at hn
        | cons entry rest =>
          cases entry with
          | str uri =>
            simp only [] at hn
            cases hr : zcaps uri with
            | error e => rw [hr] at hn; simp at hn
            | ok oc =>
              cases oc with
              | none => exact hres uri hr
              | some root => rw [hr] at hn; simp at hn
          | doc d => simp at hn
  intro hn
  unfold VerifyGo at hn
  simp only [] at hn
  cases hp : p.Capability with
  | none => rw [hp] at hn; simp at hn
  | some capability =>
    rw [hp] at hn
    simp only [] at hn
    cases hcv : verifyCapabilityChainGo zcaps capability p.CapabilityAction (some inv) with
    | none => exact hchain capability hcv
    | some r =>
      rw [hcv] at hn
      cases r with
      | error e => simp at hn
      | ok u =>
        cases u
        simp only [] at hn
        have hik : isInvokerGo capability inv.VerificationMethod ≠ none := by
          intro hikn
          unfold isInvokerGo at hikn
          cases hinv : capability.invokers with
          | error e => rw [hinv] at hikn; simp at hikn
          | ok l =>
            rw [hinv, hvm] at hikn
            simp only [] at hikn
            split at hikn <;> simp at hikn
        cases hik2 : isInvokerGo capability inv.VerificationMethod with
        | none => exact hik hik2
        | some r2 =>
          rw [hik2] at hn
          cases r2 with
          | error e => simp at hn
          | ok b => simp at hn

/-- Witness for C10: on the end-to-end inputs with every pointer non-nil and
a resolver that always returns a capability, no nil dereference occurs. -/
theorem verify_nil_safety_wit :
    VerifyGo (fun _ => .ok (some rootCap))
      (some { Capability := some rootCap, CapabilityAction := "read", VerificationMethod := "" })
      (some { ExpectedAction := "read", ExpectedTarget := "", ExpectedRootCapability := ""
              VerificationMethod := some aliceVM }) ≠ none :=
  verify_nil_safety.1 (fun _ => .ok (some rootCap))
    { Capability := some rootCap, CapabilityAction := "read", VerificationMethod := "" }
    { ExpectedAction := "read", ExpectedTarget := "", ExpectedRootCapability := ""
      VerificationMethod := some aliceVM }
    aliceVM (fun _ h => Option.noConfusion (Except.ok.inj h)) rfl

end Zcapld
